import Mathlib

/-!
Verification development for the mir-workflow batch orchestration and CSV
consolidation pipeline.

The definitions below are shallow embeddings of the JavaScript sources:

* `src/automation/file-manager.js` — `FileManager` (batch planning, batch
  lifecycle transitions, progress state persistence);
* the batch upload workflow (`UploadWorkflow.executeBatchProcessing`, with its
  consecutive-failure circuit breaker);
* the CSV merge engine (`CSVMerger`: schema validation, consolidation with a
  duplicate-resolution strategy, output writing);
* the browser-side CSV export formatting helpers (`formatBPM`,
  `formatMoodValue`).

Modelling conventions:

* JavaScript `Date` values are represented by their millisecond timestamps
  (`Nat`); JSON round-trips a `Date` through its ISO-8601 string, which
  preserves the millisecond value, so serialization stores the timestamp
  itself (`isoDateRoundtrip` marks where `new Date(isoString)` happens).
* JavaScript `Set` objects are represented as duplicate-free `List`s in
  insertion order (`addToSet`).
* CSV rows (plain JS objects) are association lists in key-insertion order;
  the boolean `_duplicate` flag is represented by the string `"true"`, its
  CSV serialization (no merge-engine code branches on its runtime type in a
  way that distinguishes the two).
* JS numbers reaching the formatting helpers are modelled as rationals;
  `Option ℚ` is used where the source distinguishes missing/unparseable
  values (`null`/`undefined`/`''`/`NaN`).
* `Array.prototype.sort` (stable per ECMA-262) is modelled by the stable
  `List.insertionSort`; the default-locale `localeCompare` comparator is
  modelled by code-point comparison.
-/

set_option autoImplicit false

namespace MirWorkflow

/-! ## Batch orchestration model (`src/automation/file-manager.js`) -/

inductive BatchStatus where
  | pending
  | processing
  | completed
  | failed
deriving DecidableEq, Repr

/-- A batch record as created by `FileManager.createBatches`. -/
structure Batch where
  id : Nat
  files : List String
  status : BatchStatus
  attempts : Nat
  maxAttempts : Nat
  startTime : Option Nat
  endTime : Option Nat
  error : Option String
deriving DecidableEq, Repr

/-- The `processingState` aggregate of `FileManager`. -/
structure ProcessingState where
  totalFiles : Nat
  processedCount : Nat
  failedCount : Nat
  currentBatch : Nat
  startTime : Option Nat
deriving DecidableEq, Repr

/-- In-memory state of a `FileManager` instance (batches, processed/failed
file sets, processing state). Sets are duplicate-free lists in insertion
order. -/
structure FileManager where
  batches : List Batch
  processedFiles : List String
  failedFiles : List String
  processingState : ProcessingState
deriving DecidableEq, Repr

/-- JS `Set.prototype.add`: append if not already present. -/
def addToSet (s : List String) (x : String) : List String :=
  if x ∈ s then s else s ++ [x]

/-- Add every element of `xs` to the set `s` (`forEach(file => set.add(file))`). -/
def addAllToSet (s : List String) (xs : List String) : List String :=
  xs.foldl addToSet s

/-- The chunking loop of `createBatches`: each step takes
`slice(i, i + size)` and advances `i` by `size`. The `fuel` parameter makes
the recursion structural (and hence kernel-computable); `chunkFiles` supplies
`fuel = l.length`, which always suffices because each step consumes at least
one element (callers always supply `size ≥ 1`; a falsy batch size falls back
to the configured default). -/
def chunkFilesGo (size : Nat) : Nat → List String → List (List String)
  | _, [] => []
  | 0, _ :: _ => []
  | fuel + 1, f :: rest => (f :: rest.take (size - 1)) :: chunkFilesGo size fuel (rest.drop (size - 1))

/-- Partition `l` into contiguous chunks of `size` (`for (i = 0; i < n; i += size)`
with `slice(i, i + size)`). -/
def chunkFiles (size : Nat) (l : List String) : List (List String) :=
  chunkFilesGo size l.length l

/-- One batch object as built inside `createBatches` (`id = batches.length + 1`,
`status: 'pending'`, `attempts: 0`, `maxAttempts: 3`). -/
def mkBatch (id : Nat) (files : List String) : Batch :=
  { id := id
    files := files
    status := .pending
    attempts := 0
    maxAttempts := 3
    startTime := none
    endTime := none
    error := none }

/-- Embedding of `FileManager.createBatches(files, batchSize)`: partition `files` into
contiguous slices of at most `batchSize` and wrap each in a fresh batch
record. A batch size of `0` models a falsy argument, replaced by the
configured default (`30`). -/
def createBatches (files : List String) (batchSize : Nat) : List Batch :=
  let size := if batchSize = 0 then 30 else batchSize
  (chunkFiles size files).enum.map (fun p => mkBatch (p.1 + 1) p.2)

/-- A `FileManager` directly after `createBatches`: fresh sets, processing
state with `totalFiles` set and `currentBatch = 0`. -/
def createBatchesFM (files : List String) (batchSize : Nat) : FileManager :=
  { batches := createBatches files batchSize
    processedFiles := []
    failedFiles := []
    processingState :=
      { totalFiles := files.length
        processedCount := 0
        failedCount := 0
        currentBatch := 0
        startTime := none } }

theorem chunkFilesGo_flatten (size : Nat) (fuel : Nat) (l : List String)
    (hfuel : l.length ≤ fuel) : (chunkFilesGo size fuel l).flatten = l := by
  induction fuel generalizing l with
  | zero =>
    match l with
    | [] => simp [chunkFilesGo]
    | _ :: _ => simp at hfuel
  | succ fuel ih =>
    match l with
    | [] => simp [chunkFilesGo]
    | f :: rest =>
      rw [chunkFilesGo]
      simp only [List.flatten_cons]
      rw [ih (rest.drop (size - 1))
        (by simp only [List.length_drop]
            simp only [List.length_cons] at hfuel
            omega)]
      simp [List.take_append_drop]

theorem chunkFiles_flatten (size : Nat) (l : List String) :
    (chunkFiles size l).flatten = l :=
  chunkFilesGo_flatten size l.length l le_rfl

theorem chunkFilesGo_length_le (size : Nat) (hsize : 1 ≤ size) (fuel : Nat)
    (l : List String) : ∀ c ∈ chunkFilesGo size fuel l, c.length ≤ size := by
  induction fuel generalizing l with
  | zero =>
    match l with
    | [] => simp [chunkFilesGo]
    | _ :: _ => simp [chunkFilesGo]
  | succ fuel ih =>
    match l with
    | [] => simp [chunkFilesGo]
    | f :: rest =>
      rw [chunkFilesGo]
      intro c hc
      rcases List.mem_cons.mp hc with h | h
      · subst h
        simp only [List.length_cons]
        have := List.length_take_le (size - 1) rest
        omega
      · exact ih (rest.drop (size - 1)) c h

theorem chunkFiles_length_le (size : Nat) (hsize : 1 ≤ size) (l : List String) :
    ∀ c ∈ chunkFiles size l, c.length ≤ size :=
  chunkFilesGo_length_le size hsize l.length l

theorem enumFrom_mkBatch_ids (chunks : List (List String)) (k : Nat) :
    ((List.enumFrom k chunks).map (fun p => mkBatch (p.1 + 1) p.2)).map Batch.id
      = List.range' (k + 1) chunks.length := by
  induction chunks generalizing k with
  | nil => simp
  | cons c cs ih =>
    simp only [List.enumFrom, List.map_cons, List.length_cons, List.range'_succ]
    rw [ih (k + 1)]
    rfl

/-- Claim C3: for every file list and every batch size ≥ 1, `createBatches`
partitions the list into contiguous chunks of at most `batchSize` files
preserving input order (the batches' file lists concatenated in id order
equal the original list), each created batch has a 1-based sequential id,
status `pending` and `attempts = 0`, and an empty file list yields zero
batches. -/
theorem createBatches_partition (files : List String) (batchSize : Nat)
    (hsize : 1 ≤ batchSize) :
    ((createBatches files batchSize).map Batch.files).flatten = files
    ∧ (∀ b ∈ createBatches files batchSize,
        b.files.length ≤ batchSize ∧ b.status = .pending ∧ b.attempts = 0)
    ∧ (createBatches files batchSize).map Batch.id
        = List.range' 1 (createBatches files batchSize).length
    ∧ (files = [] → createBatches files batchSize = []) := by
  have hsz : (if batchSize = 0 then 30 else batchSize) = batchSize := by
    have hb0 : batchSize ≠ 0 := by omega
    simp [hb0]
  refine ⟨?_, ?_, ?_, ?_⟩
  · rw [createBatches]
    simp only [hsz]
    rw [show ∀ l : List (Nat × List String),
          (l.map (fun p => mkBatch (p.1 + 1) p.2)).map Batch.files
            = l.map Prod.snd from fun l => by simp [mkBatch]]
    rw [List.enum_map_snd]
    exact chunkFiles_flatten batchSize files
  · intro b hb
    rw [createBatches] at hb
    simp only [hsz, List.mem_map] at hb
    obtain ⟨p, hp, hpb⟩ := hb
    have hmem : p.2 ∈ chunkFiles batchSize files := by
      have := List.mem_map_of_mem Prod.snd hp
      rw [List.enum_map_snd] at this
      exact this
    refine ⟨?_, ?_, ?_⟩
    · rw [← hpb]
      exact chunkFiles_length_le batchSize hsize files p.2 hmem
    · rw [← hpb]; rfl
    · rw [← hpb]; rfl
  · rw [createBatches]
    simp only [hsz, List.enum]
    rw [enumFrom_mkBatch_ids]
    simp
  · intro h
    subst h
    rw [createBatches]
    simp [chunkFiles, chunkFilesGo]

/-- Witness for C3 at a concrete input (three files, batch size two). -/
theorem createBatches_partition_witness :
    (1 ≤ 2)
    ∧ ((createBatches ["a", "b", "c"] 2).map Batch.files).flatten = ["a", "b", "c"] :=
  ⟨by decide, (createBatches_partition ["a", "b", "c"] 2 (by decide)).1⟩

/-! ## Batch lifecycle transitions -/

/-- Predicate of the first `find` in `FileManager.getNextBatch`. -/
def isPendingBatch (b : Batch) : Bool :=
  decide (b.status = BatchStatus.pending)

/-- Predicate of the second `find` in `FileManager.getNextBatch`: a failed
batch with remaining attempts. -/
def isRetryableBatch (b : Batch) : Bool :=
  decide (b.status = BatchStatus.failed) && decide (b.attempts < b.maxAttempts)

/-- Embedding of `FileManager.getNextBatch()`: the first `pending` batch if any, else the
first `failed` batch with `attempts < maxAttempts`, else none. (The source
additionally records the returned batch id in `processingState.currentBatch`;
that bookkeeping field is not consulted by any claimed behaviour.) -/
def getNextBatch (fm : FileManager) : Option Batch :=
  match fm.batches.find? isPendingBatch with
  | some b => some b
  | none => fm.batches.find? isRetryableBatch

/-- JS `batches.find(b => b.id === batchId)` followed by mutation of the found
record: replace the first batch with the given id. -/
def updateFirstBatch : List Batch → Nat → (Batch → Batch) → List Batch
  | [], _, _ => []
  | b :: rest, batchId, f =>
      if b.id = batchId then f b :: rest else b :: updateFirstBatch rest batchId f

/-- Embedding of `FileManager.markBatchStarted(batchId)`: if the batch exists, set it to
`processing`, record its start time, increment its attempts, and set the
run's start time if unset. `now` models `new Date()`. -/
def markBatchStarted (fm : FileManager) (batchId : Nat) (now : Nat) : FileManager :=
  if fm.batches.any (fun b => decide (b.id = batchId)) then
    { fm with
        batches := updateFirstBatch fm.batches batchId
          (fun b => { b with
                        status := .processing
                        startTime := some now
                        attempts := b.attempts + 1 })
        processingState :=
          { fm.processingState with
              startTime := match fm.processingState.startTime with
                           | none => some now
                           | some t => some t } }
  else fm

/-- Embedding of `FileManager.markBatchCompleted(batchId, processedFiles)`: if the batch
exists, set it to `completed`, record its end time, add the given files to
the processed set, and add their count to `processedCount`. -/
def markBatchCompleted (fm : FileManager) (batchId : Nat)
    (processedList : List String) (now : Nat) : FileManager :=
  if fm.batches.any (fun b => decide (b.id = batchId)) then
    { fm with
        batches := updateFirstBatch fm.batches batchId
          (fun b => { b with status := .completed, endTime := some now })
        processedFiles := addAllToSet fm.processedFiles processedList
        processingState :=
          { fm.processingState with
              processedCount := fm.processingState.processedCount + processedList.length } }
  else fm

/-- Embedding of `FileManager.markBatchFailed(batchId, error, failedFiles)`: if the batch
exists, set it to `failed`, record its end time and error message, add the
given files to the failed set, and add their count to `failedCount`. -/
def markBatchFailed (fm : FileManager) (batchId : Nat) (errMsg : String)
    (failedList : List String) (now : Nat) : FileManager :=
  if fm.batches.any (fun b => decide (b.id = batchId)) then
    { fm with
        batches := updateFirstBatch fm.batches batchId
          (fun b => { b with
                        status := .failed
                        endTime := some now
                        error := some errMsg })
        failedFiles := addAllToSet fm.failedFiles failedList
        processingState :=
          { fm.processingState with
              failedCount := fm.processingState.failedCount + failedList.length } }
  else fm

theorem find?_split {α : Type} {p : α → Bool} {l : List α} {a : α}
    (h : l.find? p = some a) :
    p a = true ∧ ∃ l1 l2, l = l1 ++ a :: l2 ∧ ∀ x ∈ l1, p x = false := by
  obtain ⟨hp, l1, l2, heq, hall⟩ := List.find?_eq_some.mp h
  exact ⟨hp, l1, l2, heq, fun x hx => by simpa using hall x hx⟩

/-- Claim C9: `getNextBatch` returns the first `pending` batch if one exists;
otherwise the first `failed` batch with `attempts < maxAttempts`; otherwise
none. In particular a retried (failed) batch is only ever dequeued when no
`pending` batch remains, so over a run all first-pass batches are dequeued
before any retried batch. -/
theorem getNextBatch_spec (fm : FileManager) :
    (∀ b, getNextBatch fm = some b →
      b ∈ fm.batches
      ∧ (b.status = .pending ∨ (b.status = .failed ∧ b.attempts < b.maxAttempts))
      ∧ (b.status = .pending →
          ∃ l1 l2, fm.batches = l1 ++ b :: l2 ∧ ∀ x ∈ l1, x.status ≠ .pending)
      ∧ (b.status ≠ .pending →
          (∀ x ∈ fm.batches, x.status ≠ .pending)
          ∧ ∃ l1 l2, fm.batches = l1 ++ b :: l2
              ∧ ∀ x ∈ l1, ¬(x.status = .failed ∧ x.attempts < x.maxAttempts)))
    ∧ (getNextBatch fm = none →
        ∀ x ∈ fm.batches,
          x.status ≠ .pending ∧ ¬(x.status = .failed ∧ x.attempts < x.maxAttempts)) := by
  constructor
  · intro b hb
    rw [getNextBatch] at hb
    cases hfind : fm.batches.find? isPendingBatch with
    | some b0 =>
      rw [hfind] at hb
      cases hb
      obtain ⟨hp, l1, l2, heq, hall⟩ := find?_split hfind
      have hpend : b.status = .pending := by
        simpa [isPendingBatch] using hp
      refine ⟨?_, Or.inl hpend, ?_, ?_⟩
      · rw [heq]; exact List.mem_append_right l1 (List.mem_cons_self _ _)
      · intro _
        exact ⟨l1, l2, heq, fun x hx => by
          have := hall x hx
          simpa [isPendingBatch] using this⟩
      · intro hnp; exact absurd hpend hnp
    | none =>
      rw [hfind] at hb
      have hnopending : ∀ x ∈ fm.batches, x.status ≠ .pending := by
        intro x hx
        have := List.find?_eq_none.mp hfind x hx
        simpa [isPendingBatch] using this
      obtain ⟨hp, l1, l2, heq, hall⟩ := find?_split hb
      have hfail : b.status = .failed ∧ b.attempts < b.maxAttempts := by
        constructor
        · have := (Bool.and_eq_true _ _).mp hp |>.1
          simpa using this
        · have := (Bool.and_eq_true _ _).mp hp |>.2
          simpa using this
      refine ⟨?_, Or.inr hfail, ?_, ?_⟩
      · rw [heq]; exact List.mem_append_right l1 (List.mem_cons_self _ _)
      · intro hpend
        rw [hfail.1] at hpend
        cases hpend
      · intro _
        refine ⟨hnopending, l1, l2, heq, fun x hx => ?_⟩
        have := hall x hx
        intro hcon
        rw [isRetryableBatch] at this
        simp [hcon.1, hcon.2] at this
  · intro hnone x hx
    rw [getNextBatch] at hnone
    cases hfind : fm.batches.find? isPendingBatch with
    | some b0 => rw [hfind] at hnone; cases hnone
    | none =>
      rw [hfind] at hnone
      constructor
      · have := List.find?_eq_none.mp hfind x hx
        simpa [isPendingBatch] using this
      · have := List.find?_eq_none.mp hnone x hx
        intro hcon
        rw [isRetryableBatch] at this
        simp [hcon.1, hcon.2] at this

/-- Concrete state for the C9 witness: one completed batch, one retryable
failed batch, one pending batch. -/
def fmWitnessC9 : FileManager :=
  { batches :=
      [ { mkBatch 1 ["a"] with status := .completed, attempts := 1 }
      , { mkBatch 2 ["b"] with status := .failed, attempts := 1 }
      , mkBatch 3 ["c"] ]
    processedFiles := ["a"]
    failedFiles := ["b"]
    processingState :=
      { totalFiles := 3
        processedCount := 1
        failedCount := 1
        currentBatch := 2
        startTime := some 0 } }

/-- Witness for C9: at `fmWitnessC9`, `getNextBatch` returns the pending
batch 3 even though the failed batch 2 precedes it. -/
theorem getNextBatch_spec_witness :
    mkBatch 3 ["c"] ∈ fmWitnessC9.batches
    ∧ ((mkBatch 3 ["c"]).status = .pending
        ∨ ((mkBatch 3 ["c"]).status = .failed
            ∧ (mkBatch 3 ["c"]).attempts < (mkBatch 3 ["c"]).maxAttempts)) := by
  have h := (getNextBatch_spec fmWitnessC9).1 (mkBatch 3 ["c"]) (by decide)
  exact ⟨h.1, h.2.1⟩

/-! ## The upload workflow loop (`UploadWorkflow.executeBatchProcessing`)

`processSingleBatch` marks the batch started, then drives the external
engine; on any step failure the thrown error is caught and the batch is
marked failed with its whole file list (`markBatchFailed(batch.id, error,
batch.files)`); on success it is marked completed with its whole file list
(`markBatchCompleted(batch.id, batch.files)`).
-/

/-- Error recorded when the driver's `upload` fails
(`Upload failed: ${uploadResult.error}` wrapping
`No files were uploaded successfully`). -/
def uploadFailureMessage : String :=
  "Upload failed: No files were uploaded successfully"

/-- Embedding of `processSingleBatch` against a driver whose upload always fails:
`markBatchStarted`, then the upload error is caught and the batch is marked
failed with its whole file list. -/
def processSingleBatchUploadFails (fm : FileManager) (batch : Batch) (now : Nat) :
    FileManager :=
  markBatchFailed (markBatchStarted fm batch.id now) batch.id uploadFailureMessage
    batch.files now

/-- The consecutive-failure counter update of `executeBatchProcessing`:
reset to `0` on a successful batch, incremented on a failed one. -/
def nextConsecutiveFailures (cf : Nat) (success : Bool) : Nat :=
  if success then 0 else cf + 1

/-- The `while ((batch = getNextBatch()))` loop of `executeBatchProcessing`
specialized to an always-failing driver. After each failed batch the
consecutive-failure counter is incremented and compared against the
hard-coded `maxConsecutiveFailures = 3`; reaching it breaks the loop. The
structural `fuel` parameter only makes the recursion kernel-computable: any
`fuel ≥ 3 - cf` gives the same result (`executeLoopAllFail_fuel_indep`),
because the circuit breaker stops the loop after at most `3 - cf` further
iterations. Returns the final state and the number of batch attempts
processed. -/
def executeLoopAllFail : Nat → FileManager → Nat → FileManager × Nat
  | 0, fm, _ => (fm, 0)
  | fuel + 1, fm, cf =>
    match getNextBatch fm with
    | none => (fm, 0)
    | some batch =>
      let fm1 := processSingleBatchUploadFails fm batch 0
      let cf1 := nextConsecutiveFailures cf false
      if 3 ≤ cf1 then (fm1, 1)
      else
        let r := executeLoopAllFail fuel fm1 cf1
        (r.1, r.2 + 1)

/-- The whole-run loop with an always-failing driver, starting from a zero
consecutive-failure counter. -/
def executeBatchProcessingAllFail (fm : FileManager) : FileManager × Nat :=
  executeLoopAllFail 3 fm 0

/-- Total number of recorded attempts across all batches. -/
def sumAttempts (bs : List Batch) : Nat :=
  (bs.map Batch.attempts).sum

theorem mem_updateFirstBatch {bs : List Batch} {batchId : Nat} {f : Batch → Batch}
    {x : Batch} (hx : x ∈ updateFirstBatch bs batchId f) :
    x ∈ bs ∨ ∃ b, b ∈ bs ∧ x = f b := by
  induction bs with
  | nil => simp [updateFirstBatch] at hx
  | cons b rest ih =>
    rw [updateFirstBatch] at hx
    by_cases hid : b.id = batchId
    · rw [if_pos hid] at hx
      rcases List.mem_cons.mp hx with h | h
      · exact Or.inr ⟨b, List.mem_cons_self _ _, h⟩
      · exact Or.inl (List.mem_cons_of_mem _ h)
    · rw [if_neg hid] at hx
      rcases List.mem_cons.mp hx with h | h
      · exact Or.inl (h ▸ List.mem_cons_self _ _)
      · rcases ih h with h' | ⟨b', hb', hx'⟩
        · exact Or.inl (List.mem_cons_of_mem _ h')
        · exact Or.inr ⟨b', List.mem_cons_of_mem _ hb', hx'⟩

theorem updateFirstBatch_updateFirstBatch (bs : List Batch) (batchId : Nat)
    (f1 f2 : Batch → Batch) (h1 : ∀ b, (f1 b).id = b.id) :
    updateFirstBatch (updateFirstBatch bs batchId f1) batchId f2
      = updateFirstBatch bs batchId (fun b => f2 (f1 b)) := by
  induction bs with
  | nil => rfl
  | cons b rest ih =>
    rw [updateFirstBatch]
    by_cases hid : b.id = batchId
    · rw [if_pos hid]
      rw [updateFirstBatch, if_pos (by rw [h1 b]; exact hid)]
      rw [updateFirstBatch, if_pos hid]
    · rw [if_neg hid]
      rw [updateFirstBatch, if_neg hid]
      rw [updateFirstBatch, if_neg hid, ih]

theorem updateFirstBatch_any_id (bs : List Batch) (batchId : Nat) (f : Batch → Batch)
    (hf : ∀ b, (f b).id = b.id) :
    ((updateFirstBatch bs batchId f).any (fun b => decide (b.id = batchId)))
      = (bs.any (fun b => decide (b.id = batchId))) := by
  induction bs with
  | nil => rfl
  | cons b rest ih =>
    rw [updateFirstBatch]
    by_cases hid : b.id = batchId
    · rw [if_pos hid]
      simp [hf b, hid]
    · rw [if_neg hid]
      simp only [List.any_cons, ih]

theorem sumAttempts_updateFirstBatch (bs : List Batch) (batchId : Nat)
    (f : Batch → Batch) (k : Nat) (hf : ∀ b, (f b).attempts = b.attempts + k)
    (hmem : bs.any (fun b => decide (b.id = batchId)) = true) :
    sumAttempts (updateFirstBatch bs batchId f) = sumAttempts bs + k := by
  induction bs with
  | nil => simp at hmem
  | cons b rest ih =>
    rw [updateFirstBatch]
    by_cases hid : b.id = batchId
    · rw [if_pos hid]
      simp only [sumAttempts, List.map_cons, List.sum_cons, hf b]
      omega
    · rw [if_neg hid]
      simp only [List.any_cons] at hmem
      rcases Bool.or_eq_true _ _ |>.mp hmem with h | h
      · exact absurd (of_decide_eq_true h) hid
      · simp only [sumAttempts, List.map_cons, List.sum_cons]
        have hrec := ih h
        simp only [sumAttempts] at hrec
        omega

theorem batch_mem_any_id {fm : FileManager} {batch : Batch} (h : batch ∈ fm.batches) :
    fm.batches.any (fun b => decide (b.id = batch.id)) = true :=
  List.any_eq_true.mpr ⟨batch, h, by simp⟩

/-- With the found-batch guard satisfied, the two lifecycle updates of a
failing batch attempt collapse into a single first-match update. -/
theorem processSingleBatchUploadFails_batches (fm : FileManager) (batch : Batch)
    (now : Nat) (hmem : batch ∈ fm.batches) :
    (processSingleBatchUploadFails fm batch now).batches
      = updateFirstBatch fm.batches batch.id
          (fun b => { b with
                        status := .failed
                        startTime := some now
                        endTime := some now
                        attempts := b.attempts + 1
                        error := some uploadFailureMessage }) := by
  have hany := batch_mem_any_id hmem
  rw [processSingleBatchUploadFails, markBatchStarted, if_pos hany, markBatchFailed]
  simp only
  rw [if_pos (by
    rw [updateFirstBatch_any_id fm.batches batch.id
      (fun b => { b with
                    status := .processing
                    startTime := some now
                    attempts := b.attempts + 1 })
      (fun b => rfl)]
    exact hany)]
  simp only
  rw [updateFirstBatch_updateFirstBatch fm.batches batch.id
    (fun b => { b with
                  status := .processing
                  startTime := some now
                  attempts := b.attempts + 1 })
    (fun b => { b with
                  status := .failed
                  endTime := some now
                  error := some uploadFailureMessage })
    (fun b => rfl)]

/-- Invariant tying never-dequeued batches to `pending` status: a dequeue
always increments `attempts`, so a batch with `attempts = 0` was never
dequeued and is still `pending`. -/
def BatchInvariant (fm : FileManager) : Prop :=
  ∀ b ∈ fm.batches, b.attempts = 0 → b.status = .pending

theorem processStep_sumAttempts (fm : FileManager) (batch : Batch) (now : Nat)
    (hmem : batch ∈ fm.batches) :
    sumAttempts (processSingleBatchUploadFails fm batch now).batches
      = sumAttempts fm.batches + 1 := by
  rw [processSingleBatchUploadFails_batches fm batch now hmem]
  exact sumAttempts_updateFirstBatch _ _ _ 1 (fun b => rfl) (batch_mem_any_id hmem)

theorem processStep_invariant (fm : FileManager) (batch : Batch) (now : Nat)
    (hmem : batch ∈ fm.batches) (hinv : BatchInvariant fm) :
    BatchInvariant (processSingleBatchUploadFails fm batch now) := by
  intro x hx hx0
  rw [processSingleBatchUploadFails_batches fm batch now hmem] at hx
  rcases mem_updateFirstBatch hx with h | ⟨b, _, hxb⟩
  · exact hinv x h hx0
  · rw [hxb] at hx0
    simp at hx0

theorem getNextBatch_mem {fm : FileManager} {b : Batch}
    (h : getNextBatch fm = some b) : b ∈ fm.batches := by
  rw [getNextBatch] at h
  cases hfind : fm.batches.find? isPendingBatch with
  | some b0 =>
    rw [hfind] at h
    cases h
    exact List.mem_of_find?_eq_some hfind
  | none =>
    rw [hfind] at h
    exact List.mem_of_find?_eq_some h

theorem executeLoopAllFail_spec (fuel : Nat) (fm : FileManager) (cf : Nat)
    (hcf : cf ≤ 2) (hfuel : 3 - cf ≤ fuel) (hinv : BatchInvariant fm) :
    (executeLoopAllFail fuel fm cf).2 ≤ 3 - cf
    ∧ sumAttempts (executeLoopAllFail fuel fm cf).1.batches
        = sumAttempts fm.batches + (executeLoopAllFail fuel fm cf).2
    ∧ BatchInvariant (executeLoopAllFail fuel fm cf).1 := by
  induction fuel generalizing fm cf with
  | zero => omega
  | succ fuel ih =>
    cases hnext : getNextBatch fm with
    | none =>
      simp only [executeLoopAllFail, hnext]
      exact ⟨by omega, by simp, hinv⟩
    | some batch =>
      have hmem := getNextBatch_mem hnext
      simp only [executeLoopAllFail, hnext, nextConsecutiveFailures,
        Bool.false_eq_true, if_false]
      by_cases hbreak : 3 ≤ cf + 1
      · rw [if_pos hbreak]
        refine ⟨by omega, ?_, ?_⟩
        · simp [processStep_sumAttempts fm batch 0 hmem]
        · exact processStep_invariant fm batch 0 hmem hinv
      · rw [if_neg hbreak]
        have hcf1 : cf + 1 ≤ 2 := by omega
        have hfuel1 : 3 - (cf + 1) ≤ fuel := by omega
        have hinv1 := processStep_invariant fm batch 0 hmem hinv
        obtain ⟨h1, h2, h3⟩ :=
          ih (processSingleBatchUploadFails fm batch 0) (cf + 1) hcf1 hfuel1 hinv1
        refine ⟨by omega, ?_, h3⟩
        simp only [h2, processStep_sumAttempts fm batch 0 hmem]
        omega

theorem executeLoopAllFail_fuel_indep (fuel1 : Nat) :
    ∀ (fuel2 : Nat) (fm : FileManager) (cf : Nat), cf ≤ 2 →
      3 - cf ≤ fuel1 → 3 - cf ≤ fuel2 →
      executeLoopAllFail fuel1 fm cf = executeLoopAllFail fuel2 fm cf := by
  induction fuel1 with
  | zero => intro fuel2 fm cf hcf h1 h2; omega
  | succ fuel1 ih =>
    intro fuel2 fm cf hcf h1 h2
    match fuel2 with
    | 0 => omega
    | fuel2 + 1 =>
      cases hnext : getNextBatch fm with
      | none => simp only [executeLoopAllFail, hnext]
      | some batch =>
        simp only [executeLoopAllFail, hnext, nextConsecutiveFailures,
          Bool.false_eq_true, if_false]
        by_cases hbreak : 3 ≤ cf + 1
        · rw [if_pos hbreak, if_pos hbreak]
        · rw [if_neg hbreak, if_neg hbreak]
          rw [ih fuel2 (processSingleBatchUploadFails fm batch 0) (cf + 1)
            (by omega) (by omega) (by omega)]

theorem createBatches_pending_attempts (files : List String) (batchSize : Nat) :
    ∀ b ∈ createBatches files batchSize, b.status = .pending ∧ b.attempts = 0 := by
  intro b hb
  rw [createBatches] at hb
  simp only [List.mem_map] at hb
  obtain ⟨p, _, hpb⟩ := hb
  rw [← hpb]
  exact ⟨rfl, rfl⟩

/-- Ten concrete files for the worked circuit-breaker example of the spec
(ten batches of one file each). -/
def tenFiles : List String :=
  ["f01", "f02", "f03", "f04", "f05", "f06", "f07", "f08", "f09", "f10"]

/-- Claim C4: the orchestrator increments a consecutive-failure counter on
each batch failure and resets it on success; with an always-failing driver
the run performs at most `3` (= the hard-coded `maxConsecutiveFailures`)
batch attempts regardless of total batch count, any larger fuel bound gives
the identical run, batches never dequeued (attempts = 0) remain `pending`,
and in the concrete 10-batch instance batches 1–3 fail once each while
batches 4–10 stay `pending`. -/
theorem executeBatchProcessing_circuitBreaker :
    (∀ (files : List String) (batchSize : Nat),
      (executeBatchProcessingAllFail (createBatchesFM files batchSize)).2 ≤ 3
      ∧ sumAttempts (executeBatchProcessingAllFail (createBatchesFM files batchSize)).1.batches
          = (executeBatchProcessingAllFail (createBatchesFM files batchSize)).2
      ∧ (∀ b ∈ (executeBatchProcessingAllFail (createBatchesFM files batchSize)).1.batches,
          b.attempts = 0 → b.status = .pending)
      ∧ (∀ fuel, 3 ≤ fuel →
          executeLoopAllFail fuel (createBatchesFM files batchSize) 0
            = executeBatchProcessingAllFail (createBatchesFM files batchSize)))
    ∧ (∀ cf, nextConsecutiveFailures cf true = 0 ∧ nextConsecutiveFailures cf false = cf + 1)
    ∧ ((executeBatchProcessingAllFail (createBatchesFM tenFiles 1)).1.batches.map
          (fun b => (b.id, b.status, b.attempts)))
        = [(1, .failed, 1), (2, .failed, 1), (3, .failed, 1),
           (4, .pending, 0), (5, .pending, 0), (6, .pending, 0), (7, .pending, 0),
           (8, .pending, 0), (9, .pending, 0), (10, .pending, 0)] := by
  refine ⟨?_, ?_, ?_⟩
  · intro files batchSize
    have hinv : BatchInvariant (createBatchesFM files batchSize) := by
      intro b hb _
      exact (createBatches_pending_attempts files batchSize b hb).1
    have hsum0 : sumAttempts (createBatchesFM files batchSize).batches = 0 := by
      rw [sumAttempts]
      apply List.sum_eq_zero
      intro x hx
      simp only [List.mem_map] at hx
      obtain ⟨b, hb, hbx⟩ := hx
      rw [← hbx]
      exact (createBatches_pending_attempts files batchSize b hb).2
    obtain ⟨h1, h2, h3⟩ :=
      executeLoopAllFail_spec 3 (createBatchesFM files batchSize) 0
        (by omega) (by omega) hinv
    refine ⟨by simpa using h1, ?_, h3, ?_⟩
    · rw [executeBatchProcessingAllFail] at *
      rw [h2, hsum0]
      omega
    · intro fuel hfuel
      exact executeLoopAllFail_fuel_indep fuel 3 (createBatchesFM files batchSize) 0
        (by omega) (by omega) (by omega)
  · intro cf
    exact ⟨rfl, rfl⟩
  · decide

/-- Witness for C4: the fuel-extension hypothesis is discharged at `fuel = 4`
for a one-file run. -/
theorem executeBatchProcessing_circuitBreaker_witness :
    executeLoopAllFail 4 (createBatchesFM ["x"] 1) 0
      = executeBatchProcessingAllFail (createBatchesFM ["x"] 1) :=
  (executeBatchProcessing_circuitBreaker.1 ["x"] 1).2.2.2 4 (by decide)

/-! ## Claim C2: the processed/failed counter invariant -/

/-- The spec's retry scenario driven through the state store exactly as the
workflow drives it: 7 files in batches of 3; batch 1 completes; batch 2
fails twice (each time `markBatchFailed` receives the batch's whole file
list) and then completes on its third attempt; batch 3 completes. -/
def retryScenarioTrace : FileManager :=
  let s0 := createBatchesFM ["f1", "f2", "f3", "f4", "f5", "f6", "f7"] 3
  let s1 := markBatchCompleted (markBatchStarted s0 1 0) 1 ["f1", "f2", "f3"] 1
  let s2 := markBatchFailed (markBatchStarted s1 2 2) 2 uploadFailureMessage
              ["f4", "f5", "f6"] 3
  let s3 := markBatchFailed (markBatchStarted s2 2 4) 2 uploadFailureMessage
              ["f4", "f5", "f6"] 5
  let s4 := markBatchCompleted (markBatchStarted s3 2 6) 2 ["f4", "f5", "f6"] 7
  markBatchCompleted (markBatchStarted s4 3 8) 3 ["f7"] 9

/-- Claim C2 (refuted — code bug): in the spec's own scenario (batch 2 fails
twice, then succeeds on the third attempt), `markBatchFailed` has added the
whole batch's file count to `failedCount` on every failed attempt and
nothing removes it on the later success, so the reachable state has
`processedCount + failedCount = 13 > 7 = totalFiles`, violating the claimed
invariant, even though batch 2 indeed ends `completed` with `attempts = 3`
and `processedCount = 7`. -/
theorem processingState_counter_invariant_violation :
    retryScenarioTrace.processingState.totalFiles = 7
    ∧ retryScenarioTrace.processingState.processedCount = 7
    ∧ retryScenarioTrace.processingState.failedCount = 6
    ∧ ¬(retryScenarioTrace.processingState.processedCount
          + retryScenarioTrace.processingState.failedCount
          ≤ retryScenarioTrace.processingState.totalFiles)
    ∧ (∃ b ∈ retryScenarioTrace.batches,
        b.id = 2 ∧ b.status = .completed ∧ b.attempts = 3) := by
  decide

/-! ## CSV merge engine (`CSVMerger`)

A CSV row (a plain JS object produced by `csv-parser`) is an association
list in key-insertion order. The boolean `_duplicate` flag set under the
`flag_duplicates` strategy is represented by the string `"true"` (its CSV
serialization; no merge-engine code distinguishes the two further). -/

abbrev Row := List (String × String)

/-- JS property read `row[k]`: value of the first (only) entry with key `k`. -/
def rowGet (row : Row) (k : String) : Option String :=
  (row.find? (fun p => p.1 == k)).map Prod.snd

def rowHasKey (row : Row) (k : String) : Bool :=
  row.any (fun p => p.1 == k)

/-- JS property write `row[k] = v`: replace in place if the key exists,
otherwise append (insertion order). -/
def rowSet (row : Row) (k v : String) : Row :=
  if rowHasKey row k then row.map (fun p => if p.1 == k then (k, v) else p)
  else row ++ [(k, v)]

/-- The key list `Object.keys(row)` in insertion order. -/
def rowKeys (row : Row) : List String :=
  row.map Prod.fst

/-- JS `a || b` on string-or-missing values: `b` unless `a` is present and
non-empty (truthy). -/
def firstTruthyString (a : Option String) (alt : String) : String :=
  match a with
  | some s => if s = "" then alt else s
  | none => alt

/-- The duplicate key of `consolidateCSVData`:
`row.Filename || row.filename || row.file || ''`. -/
def filenameOf (row : Row) : String :=
  firstTruthyString (rowGet row "Filename")
    (firstTruthyString (rowGet row "filename")
      (firstTruthyString (rowGet row "file") ""))

/-- The `duplicateStrategy` configuration values. -/
inductive DuplicateStrategy where
  | keep_first
  | keep_last
  | flag_duplicates
deriving DecidableEq, Repr

/-- A batch export artifact as the merge engine sees it: its filename, its
size on disk (`0` models an empty file), the header row and the data rows
parsed by `csv-parser` (an empty file yields no header and no rows). -/
structure CsvFile where
  name : String
  fileSize : Nat
  header : List String
  rows : List Row
deriving DecidableEq, Repr

/-- The required columns `CSVMerger.expectedSchema`. -/
def expectedSchema : List String :=
  ["Filename", "BPM", "Key", "Happy", "Sad", "Relaxed", "Aggressive", "Danceability"]

/-- Inside `validateSchema`: the expected columns absent from the actual header
(extra columns are tolerated). -/
def missingColumns (actualHeaders : List String) : List String :=
  expectedSchema.filter (fun col => !(actualHeaders.contains col))

/-- The verdict `validateSchema(header).valid`. -/
def validateSchema (actualHeaders : List String) : Bool :=
  (missingColumns actualHeaders).isEmpty

/-- The lists accumulated by `CSVMerger.validateBatchFiles` (each entry is a
file name with its error message; `corruptedFiles` collects I/O read errors,
which cannot arise in this pure model). -/
structure ValidationResults where
  validFiles : List String
  invalidFiles : List (String × String)
  schemaErrors : List (String × String)
deriving DecidableEq, Repr

/-- Embedding of `CSVMerger.validateBatchFiles(batchFiles)`: an empty file is recorded in
`invalidFiles`; a file whose header misses a required column is recorded in
`schemaErrors`; all other files are recorded in `validFiles`. -/
def validateBatchFiles (batchFiles : List CsvFile) : ValidationResults :=
  batchFiles.foldl
    (fun (acc : ValidationResults) (f : CsvFile) =>
      if f.fileSize = 0 then
        { acc with invalidFiles := acc.invalidFiles ++ [(f.name, "File is empty")] }
      else if validateSchema f.header = false then
        { acc with schemaErrors := acc.schemaErrors ++ [(f.name, "Missing required columns")] }
      else
        { acc with validFiles := acc.validFiles ++ [f.name] })
    { validFiles := [], invalidFiles := [], schemaErrors := [] }

/-- Accumulator of the `consolidateCSVData` loop: the consolidated rows and
the `seenFilenames` set. -/
structure ConsolidateState where
  consolidatedData : List Row
  seenFilenames : List String
deriving DecidableEq, Repr

/-- The `findIndex`/`splice` pair of the `keep_last` branch: drop the first
row whose filename key equals `fn`. -/
def removeFirstRowWithFilename : List Row → String → List Row
  | [], _ => []
  | r :: rest, fn =>
      if filenameOf r = fn then rest
      else r :: removeFirstRowWithFilename rest fn

/-- The body of the `for (const row of batchData)` loop of
`consolidateCSVData`, processing one row from the file named `sourceFile`.
A first occurrence is appended and its filename recorded; a duplicate is
skipped (`keep_first`), replaces the earlier occurrence (`keep_last`:
`splice` the old row out, push the new one), or is appended tagged with
`_duplicate` and `_original_batch` metadata (`flag_duplicates`). -/
def consolidateStep (strategy : DuplicateStrategy) (sourceFile : String)
    (st : ConsolidateState) (row : Row) : ConsolidateState :=
  let filename := filenameOf row
  if filename ∈ st.seenFilenames then
    match strategy with
    | .keep_first => st
    | .keep_last =>
        { consolidatedData :=
            removeFirstRowWithFilename st.consolidatedData filename ++ [row]
          seenFilenames := addToSet st.seenFilenames filename }
    | .flag_duplicates =>
        { consolidatedData :=
            st.consolidatedData
              ++ [rowSet (rowSet row "_duplicate" "true") "_original_batch" sourceFile]
          seenFilenames := addToSet st.seenFilenames filename }
  else
    { consolidatedData := st.consolidatedData ++ [row]
      seenFilenames := addToSet st.seenFilenames filename }

/-- Code-point comparison of strings, modelling the default-locale
`localeCompare` comparator (`≤ 0`). -/
def charListLe : List Char → List Char → Bool
  | [], _ => true
  | _ :: _, [] => false
  | a :: as, b :: bs =>
      if a.toNat < b.toNat then true
      else if b.toNat < a.toNat then false
      else charListLe as bs

/-- The final `consolidatedData.sort((a, b) => filenameA.localeCompare(filenameB))`
of `consolidateCSVData`. `Array.prototype.sort` is stable (ECMA-262), so the
stable `insertionSort` models it. -/
def sortByFilename (data : List Row) : List Row :=
  List.insertionSort
    (fun a b => charListLe (filenameOf a).data (filenameOf b).data = true) data

/-- The row-consolidation loops of `CSVMerger.consolidateCSVData` over all
batch files (per-file read errors cannot arise in this pure model), before
the final sort. -/
def consolidateRowsPre (strategy : DuplicateStrategy) (batchFiles : List CsvFile) :
    List Row :=
  (batchFiles.foldl
    (fun (st : ConsolidateState) (f : CsvFile) =>
      f.rows.foldl (consolidateStep strategy f.name) st)
    { consolidatedData := [], seenFilenames := [] }).consolidatedData

/-- Embedding of `CSVMerger.consolidateCSVData(batchFiles)`: consolidate every file's rows
in order, then sort by filename. -/
def consolidateCSVData (strategy : DuplicateStrategy) (batchFiles : List CsvFile) :
    List Row :=
  sortByFilename (consolidateRowsPre strategy batchFiles)

/-- The value flow of `CSVMerger.mergeCSVFiles`: step 2 computes the
validation results (they are only reported), and step 3 passes the full
discovered `batchFiles` list — not `validationResults.validFiles` — to
`consolidateCSVData`. -/
def mergeCSVFiles (strategy : DuplicateStrategy) (batchFiles : List CsvFile) :
    ValidationResults × List Row :=
  (validateBatchFiles batchFiles, consolidateCSVData strategy batchFiles)

/-! ## Output writing (`CSVMerger.writeCSVFile`) -/

/-- The field-escaping step of `writeCSVFile`: a value containing a comma or
a double quote is wrapped in double quotes with internal quotes doubled;
anything else (including values containing newlines) is written verbatim. -/
def escapeCsvValue (value : String) : String :=
  if value.data.contains ',' || value.data.contains '"' then
    String.mk ('"' :: (value.data.flatMap (fun c => if c = '"' then ['"', '"'] else [c])) ++ ['"'])
  else value

/-- Embedding of `CSVMerger.writeCSVFile`: rejects empty data (`No data to write`),
otherwise writes one line per row after a header line taken from
`Object.keys` of the first row; every row is serialized over exactly those
header keys (`row[header] || ''`). -/
def writeCSVLines (data : List Row) : Option (List String) :=
  match data with
  | [] => none
  | first :: _ =>
      let headers := rowKeys first
      some (String.intercalate "," headers
        :: data.map (fun row =>
            String.intercalate ","
              (headers.map (fun h => escapeCsvValue ((rowGet row h).getD "")))))

/-! ## Claim C1: validation does not gate consolidation -/

/-- A fully schema-conformant row for `"a.mp3"`. -/
def rowA1 : Row :=
  [("Filename", "a.mp3"), ("BPM", "120"), ("Key", "C major"), ("Happy", "0.800"),
   ("Sad", "0.100"), ("Relaxed", "0.200"), ("Aggressive", "0.100"),
   ("Danceability", "0.700")]

/-- A second row for `"a.mp3"` with different feature values. -/
def rowA2 : Row :=
  [("Filename", "a.mp3"), ("BPM", "95"), ("Key", "A minor"), ("Happy", "0.300"),
   ("Sad", "0.600"), ("Relaxed", "0.400"), ("Aggressive", "0.200"),
   ("Danceability", "0.500")]

/-- A schema-conformant row for `"b.mp3"`. -/
def rowB : Row :=
  [("Filename", "b.mp3"), ("BPM", "90"), ("Key", "G major"), ("Happy", "0.600"),
   ("Sad", "0.200"), ("Relaxed", "0.500"), ("Aggressive", "0.100"),
   ("Danceability", "0.400")]

/-- A row from an artifact whose header (and hence row) lacks the required
`BPM` column. -/
def rowNoBpm : Row :=
  [("Filename", "c.mp3"), ("Key", "D minor"), ("Happy", "0.400"),
   ("Sad", "0.200"), ("Relaxed", "0.300"), ("Aggressive", "0.200"),
   ("Danceability", "0.600")]

/-- A valid batch artifact. -/
def validArtifact : CsvFile :=
  { name := "batch_001_music_analysis_export.csv"
    fileSize := 200
    header := expectedSchema
    rows := [rowA1] }

/-- A batch artifact whose header misses the required `BPM` column. -/
def schemaErrorArtifact : CsvFile :=
  { name := "batch_002_music_analysis_export.csv"
    fileSize := 180
    header := ["Filename", "Key", "Happy", "Sad", "Relaxed", "Aggressive", "Danceability"]
    rows := [rowNoBpm] }

/-- Claim C1 (refuted — code bug): `mergeCSVFiles` records the
`BPM`-less artifact as a schema error, yet its row still appears in the
consolidated output, because step 3 passes the full discovered file list to
`consolidateCSVData` instead of `validationResults.validFiles` (the merge of
the valid file is indeed not aborted — its row is present too). -/
theorem merge_includes_schemaError_rows :
    (validateBatchFiles [validArtifact, schemaErrorArtifact]).schemaErrors.map Prod.fst
        = ["batch_002_music_analysis_export.csv"]
    ∧ (validateBatchFiles [validArtifact, schemaErrorArtifact]).validFiles
        = ["batch_001_music_analysis_export.csv"]
    ∧ rowNoBpm ∈ (mergeCSVFiles .keep_first [validArtifact, schemaErrorArtifact]).2
    ∧ rowA1 ∈ (mergeCSVFiles .keep_first [validArtifact, schemaErrorArtifact]).2 := by
  decide

/-! ## Claim C8: field quoting in the written output -/

/-- A row whose filename field contains a newline (and no comma or quote). -/
def newlineRow : Row :=
  [("Filename", "a\nb.mp3"), ("BPM", "120")]

/-- Counterexample to C8 as stated: a field containing a newline (but no
comma or quote) is written verbatim — it is not wrapped in double quotes —
so the written line embeds a raw line break. -/
theorem writeCSV_newline_unquoted :
    ("a\nb.mp3").data.contains '\n' = true
    ∧ escapeCsvValue "a\nb.mp3" = "a\nb.mp3"
    ∧ writeCSVLines [newlineRow] = some ["Filename,BPM", "a\nb.mp3,120"] := by
  decide

/-- Claim C8 (amended): when the merge engine writes the consolidated output,
every field containing a comma or a double quote is wrapped in double quotes
with internal quotes doubled, fields containing neither (including fields
containing newlines) are written verbatim, and the output is one header row
(the first row's keys) followed by one line per consolidated row. -/
theorem writeCSV_quoting (v : String) (data : List Row) (first : Row)
    (rest : List Row) :
    (v.data.contains ',' = true ∨ v.data.contains '"' = true →
      escapeCsvValue v
        = String.mk ('"' :: (v.data.flatMap (fun c => if c = '"' then ['"', '"'] else [c])) ++ ['"']))
    ∧ (v.data.contains ',' = false → v.data.contains '"' = false → escapeCsvValue v = v)
    ∧ (data = first :: rest →
        writeCSVLines data
          = some (String.intercalate "," (rowKeys first)
              :: data.map (fun row =>
                  String.intercalate ","
                    ((rowKeys first).map (fun h => escapeCsvValue ((rowGet row h).getD "")))))) := by
  refine ⟨?_, ?_, ?_⟩
  · intro h
    have hcond : (v.data.contains ',' || v.data.contains '"') = true := by
      rcases h with h | h
      · exact Bool.or_eq_true _ _ |>.mpr (Or.inl h)
      · exact Bool.or_eq_true _ _ |>.mpr (Or.inr h)
    rw [escapeCsvValue, if_pos hcond]
  · intro h1 h2
    have hcond : ¬((v.data.contains ',' || v.data.contains '"') = true) := by
      intro hcon
      rcases Bool.or_eq_true _ _ |>.mp hcon with hx | hx
      · rw [h1] at hx; exact Bool.false_ne_true hx
      · rw [h2] at hx; exact Bool.false_ne_true hx
    rw [escapeCsvValue, if_neg hcond]
  · intro hshape
    subst hshape
    rfl

/-- Witness for C8 (amended): a comma-bearing field is quoted, and the
newline-row file is written as header plus serialized rows. -/
theorem writeCSV_quoting_witness :
    escapeCsvValue "a,b" = "\"a,b\""
    ∧ writeCSVLines [newlineRow]
        = some (String.intercalate "," (rowKeys newlineRow)
            :: [newlineRow].map (fun row =>
                String.intercalate ","
                  ((rowKeys newlineRow).map (fun h => escapeCsvValue ((rowGet row h).getD ""))))) := by
  constructor
  · have h := (writeCSV_quoting "a,b" [] [] []).1 (Or.inl (by decide))
    rw [h]
    decide
  · exact (writeCSV_quoting "" [newlineRow] newlineRow []).2.2 rfl

/-! ## Claim C10: the header comes from the first row only -/

/-- Dropping a key from a row (used to state that a key absent from the
first row is irrelevant to the written output). -/
def rowErase (row : Row) (k : String) : Row :=
  row.filter (fun p => !(p.1 == k))

theorem rowErase_of_not_mem (row : Row) (k : String) (hk : k ∉ rowKeys row) :
    rowErase row k = row := by
  rw [rowErase]
  apply List.filter_eq_self.mpr
  intro p hp
  have : p.1 ≠ k := by
    intro h
    exact hk (h ▸ List.mem_map_of_mem Prod.fst hp)
  simp [this]

theorem rowGet_rowErase (row : Row) (k h : String) (hne : h ≠ k) :
    rowGet (rowErase row k) h = rowGet row h := by
  rw [rowGet, rowGet, rowErase]
  congr 1
  induction row with
  | nil => rfl
  | cons p rest ih =>
    by_cases hpk : p.1 = k
    · rw [List.filter_cons_of_neg (by simp [hpk])]
      have hrw : List.find? (fun q : String × String => q.1 == h) (p :: rest)
          = List.find? (fun q : String × String => q.1 == h) rest := by
        simp only [List.find?]
        have hne2 : p.1 ≠ h := by
          rw [hpk]
          exact fun hcon => hne hcon.symm
        have hph : (p.1 == h) = false := by simp [hne2]
        rw [hph]
      rw [hrw]
      exact ih
    · rw [List.filter_cons_of_pos (by simp [hpk])]
      simp only [List.find?]
      cases hph : (p.1 == h) with
      | true => simp [hph]
      | false =>
        simp only [hph]
        exact ih

/-- Claim C10: `writeCSVFile` derives the header solely from the first
consolidated row's keys and serializes every row over exactly those keys,
so a field present only on later rows (such as the `_duplicate` /
`_original_batch` metadata added under `flag_duplicates` when the first
sorted row is not a duplicate) is absent from the written output: erasing
such a key from every row leaves the output unchanged. -/
theorem writeCSV_header_from_first_row (data : List Row) (k : String)
    (first : Row) (rest : List Row) (hshape : data = first :: rest)
    (hk : k ∉ rowKeys first) :
    writeCSVLines (data.map (fun r => rowErase r k)) = writeCSVLines data := by
  subst hshape
  rw [List.map_cons, rowErase_of_not_mem first k hk]
  simp only [writeCSVLines]
  congr 2
  rw [List.map_cons, List.map_cons]
  congr 1
  rw [List.map_map]
  apply List.map_congr_left
  intro r _
  simp only [Function.comp_apply]
  congr 1
  apply List.map_congr_left
  intro h hh
  have hne : h ≠ k := fun hcon => hk (hcon ▸ hh)
  rw [rowGet_rowErase r k h hne]

/-- Two artifacts both containing a row for `"a.mp3"`. -/
def duplicateScenario : List CsvFile :=
  [ { name := "batch_001_music_analysis_export.csv"
      fileSize := 300
      header := expectedSchema
      rows := [rowA1, rowB] }
  , { name := "batch_002_music_analysis_export.csv"
      fileSize := 200
      header := expectedSchema
      rows := [rowA2] } ]

/-- The duplicate `"a.mp3"` row as tagged by the `flag_duplicates` branch. -/
def rowA2Flagged : Row :=
  rowSet (rowSet rowA2 "_duplicate" "true") "_original_batch"
    "batch_002_music_analysis_export.csv"

/-- Witness for C10: in the `flag_duplicates` consolidation of
`duplicateScenario` the first sorted row is the untagged first occurrence of
`"a.mp3"`, so erasing `_duplicate` everywhere leaves the written file
unchanged. -/
theorem writeCSV_header_from_first_row_witness :
    writeCSVLines ((consolidateCSVData .flag_duplicates duplicateScenario).map
        (fun r => rowErase r "_duplicate"))
      = writeCSVLines (consolidateCSVData .flag_duplicates duplicateScenario) :=
  writeCSV_header_from_first_row (consolidateCSVData .flag_duplicates duplicateScenario)
    "_duplicate" rowA1 [rowA2Flagged, rowB] (by decide) (by decide)

/-! ## Claim C5: duplicate-resolution policies

Specification-side descriptions of the three policies, written from the
spec's words and compared with the consolidation loop:
`keep_first` ignores later duplicate rows, `keep_last` replaces the earlier
row with the later one, `flag_duplicates` keeps every row and tags each
occurrence after the first with duplicate metadata. -/

/-- The row stream the consolidation loop processes: every file's rows in
file order, each paired with its source file name. -/
def allRows (batchFiles : List CsvFile) : List (String × Row) :=
  (batchFiles.map (fun f => f.rows.map (fun r => (f.name, r)))).flatten

/-- Whether some row in the stream has the given filename key. -/
def hasFilename (l : List (String × Row)) (fn : String) : Bool :=
  l.any (fun p => fn == filenameOf p.2)

/-- Spec `keep_first`: keep each row and ignore all later rows sharing its
filename key. -/
def specKeepFirst : List (String × Row) → List Row
  | [] => []
  | (_, r) :: rest =>
      r :: specKeepFirst (rest.filter (fun p => !(filenameOf r == filenameOf p.2)))
termination_by l => l.length
decreasing_by
  simp only [List.length_cons]
  have := List.length_filter_le (fun p => !(filenameOf r == filenameOf p.2)) rest
  omega

/-- Spec `keep_last`: a row survives iff no later row shares its filename
key (the later one replaces it). -/
def specKeepLast : List (String × Row) → List Row
  | [] => []
  | (_, r) :: rest =>
      if hasFilename rest (filenameOf r) then specKeepLast rest
      else r :: specKeepLast rest

/-- The duplicate metadata added to a flagged occurrence. -/
def flagRow (sourceFile : String) (r : Row) : Row :=
  rowSet (rowSet r "_duplicate" "true") "_original_batch" sourceFile

/-- Spec `flag_duplicates`: keep every row in order; an occurrence whose
filename key was already seen is tagged with `_duplicate` and
`_original_batch` metadata. -/
def specFlagDuplicates (seenNames : List String) : List (String × Row) → List Row
  | [] => []
  | (n, r) :: rest =>
      (if filenameOf r ∈ seenNames then flagRow n r else r)
        :: specFlagDuplicates (filenameOf r :: seenNames) rest

/-- The consolidation fold over the flattened row stream. -/
def consolidateGo (strategy : DuplicateStrategy) (st : ConsolidateState)
    (l : List (String × Row)) : ConsolidateState :=
  l.foldl (fun st p => consolidateStep strategy p.1 st p.2) st

theorem mem_addToSet (s : List String) (x y : String) :
    y ∈ addToSet s x ↔ y = x ∨ y ∈ s := by
  rw [addToSet]
  by_cases hx : x ∈ s
  · rw [if_pos hx]
    constructor
    · exact Or.inr
    · rintro (h | h)
      · exact h ▸ hx
      · exact h
  · rw [if_neg hx]
    simp [List.mem_append, or_comm]

theorem consolidateFoldl_eq_go (strategy : DuplicateStrategy)
    (batchFiles : List CsvFile) : ∀ st : ConsolidateState,
    batchFiles.foldl
      (fun (st : ConsolidateState) (f : CsvFile) =>
        f.rows.foldl (consolidateStep strategy f.name) st) st
      = consolidateGo strategy st (allRows batchFiles) := by
  induction batchFiles with
  | nil => intro st; rfl
  | cons f fs ih =>
    intro st
    rw [List.foldl_cons, ih]
    rw [show allRows (f :: fs)
          = f.rows.map (fun r => (f.name, r)) ++ allRows fs from by
        rw [allRows, allRows, List.map_cons, List.flatten_cons]]
    simp only [consolidateGo]
    rw [List.foldl_append, List.foldl_map]

theorem consolidateRowsPre_eq_go (strategy : DuplicateStrategy)
    (batchFiles : List CsvFile) :
    consolidateRowsPre strategy batchFiles
      = (consolidateGo strategy { consolidatedData := [], seenFilenames := [] }
          (allRows batchFiles)).consolidatedData := by
  rw [consolidateRowsPre, consolidateFoldl_eq_go]

theorem consolidateGo_flag (l : List (String × Row)) :
    ∀ (st : ConsolidateState) (names : List String),
      (∀ fn, fn ∈ st.seenFilenames ↔ fn ∈ names) →
      (consolidateGo .flag_duplicates st l).consolidatedData
        = st.consolidatedData ++ specFlagDuplicates names l := by
  induction l with
  | nil =>
    intro st names _
    simp [consolidateGo, specFlagDuplicates]
  | cons p rest ih =>
    obtain ⟨n, r⟩ := p
    intro st names hseen
    rw [show consolidateGo .flag_duplicates st ((n, r) :: rest)
          = consolidateGo .flag_duplicates (consolidateStep .flag_duplicates n st r) rest
        from rfl]
    rw [specFlagDuplicates]
    by_cases hmem : filenameOf r ∈ st.seenFilenames
    · have hmemn : filenameOf r ∈ names := (hseen _).mp hmem
      rw [if_pos hmemn]
      rw [show consolidateStep .flag_duplicates n st r
            = { consolidatedData := st.consolidatedData ++ [flagRow n r]
                seenFilenames := addToSet st.seenFilenames (filenameOf r) } from by
        rw [consolidateStep]
        simp only [if_pos hmem]
        rfl]
      rw [ih _ (filenameOf r :: names) (fun g => by
        rw [mem_addToSet]
        simp only [List.mem_cons]
        exact or_congr Iff.rfl (hseen g))]
      simp [List.append_assoc]
    · have hmemn : filenameOf r ∉ names := fun h => hmem ((hseen _).mpr h)
      rw [if_neg hmemn]
      rw [show consolidateStep .flag_duplicates n st r
            = { consolidatedData := st.consolidatedData ++ [r]
                seenFilenames := addToSet st.seenFilenames (filenameOf r) } from by
        rw [consolidateStep]
        simp only [if_neg hmem]]
      rw [ih _ (filenameOf r :: names) (fun g => by
        rw [mem_addToSet]
        simp only [List.mem_cons]
        exact or_congr Iff.rfl (hseen g))]
      simp [List.append_assoc]

theorem specFlagDuplicates_length (l : List (String × Row)) :
    ∀ names, (specFlagDuplicates names l).length = l.length := by
  induction l with
  | nil => intro names; rfl
  | cons p rest ih =>
    obtain ⟨n, r⟩ := p
    intro names
    rw [specFlagDuplicates]
    simp only [List.length_cons, ih]

theorem consolidateGo_keepFirst (l : List (String × Row)) :
    ∀ st : ConsolidateState,
      (consolidateGo .keep_first st l).consolidatedData
        = st.consolidatedData
          ++ specKeepFirst
              (l.filter (fun p => !(decide (filenameOf p.2 ∈ st.seenFilenames)))) := by
  induction l with
  | nil =>
    intro st
    simp [consolidateGo, specKeepFirst]
  | cons p rest ih =>
    obtain ⟨n, r⟩ := p
    intro st
    rw [show consolidateGo .keep_first st ((n, r) :: rest)
          = consolidateGo .keep_first (consolidateStep .keep_first n st r) rest
        from rfl]
    by_cases hmem : filenameOf r ∈ st.seenFilenames
    · rw [show consolidateStep .keep_first n st r = st from by
        rw [consolidateStep]
        simp only [if_pos hmem]]
      rw [ih st, List.filter_cons_of_neg (by simp [hmem])]
    · rw [show consolidateStep .keep_first n st r
            = { consolidatedData := st.consolidatedData ++ [r]
                seenFilenames := addToSet st.seenFilenames (filenameOf r) } from by
        rw [consolidateStep]
        simp only [if_neg hmem]]
      rw [ih]
      rw [List.filter_cons_of_pos (by simp [hmem])]
      rw [specKeepFirst, List.filter_filter]
      rw [show (rest.filter (fun p =>
              !(decide (filenameOf p.2 ∈ addToSet st.seenFilenames (filenameOf r)))))
            = (rest.filter (fun p => (!(filenameOf r == filenameOf p.2))
                && (!(decide (filenameOf p.2 ∈ st.seenFilenames))))) from by
        apply List.filter_congr
        intro p _
        by_cases hpf : filenameOf p.2 = filenameOf r
        · have h1 : decide (filenameOf p.2 ∈ addToSet st.seenFilenames (filenameOf r))
              = true := decide_eq_true ((mem_addToSet _ _ _).mpr (Or.inl hpf))
          have h2 : (filenameOf r == filenameOf p.2) = true := beq_iff_eq.mpr hpf.symm
          rw [h1, h2]
          rfl
        · have h2 : (filenameOf r == filenameOf p.2) = false :=
            beq_eq_false_iff_ne.mpr (fun hcon => hpf hcon.symm)
          have h1 : (filenameOf p.2 ∈ addToSet st.seenFilenames (filenameOf r))
              ↔ (filenameOf p.2 ∈ st.seenFilenames) := by
            rw [mem_addToSet]
            exact or_iff_right hpf
          rw [h2, decide_eq_decide.mpr h1]
          rfl]
      simp [List.append_assoc]

theorem specKeepFirst_subset (l : List (String × Row)) :
    ∀ r' ∈ specKeepFirst l, ∃ p, p ∈ l ∧ p.2 = r' := by
  match l with
  | [] => simp [specKeepFirst]
  | (n, r) :: rest =>
    rw [specKeepFirst]
    intro r' hr'
    rcases List.mem_cons.mp hr' with h | h
    · exact ⟨(n, r), List.mem_cons_self _ _, h.symm⟩
    · obtain ⟨p, hp, hpr⟩ := specKeepFirst_subset
        (rest.filter (fun p => !(filenameOf r == filenameOf p.2))) r' h
      exact ⟨p, List.mem_cons_of_mem _ (List.mem_of_mem_filter hp), hpr⟩
termination_by l.length
decreasing_by
  simp only [List.length_cons]
  have := List.length_filter_le (fun p => !(filenameOf r == filenameOf p.2)) rest
  omega

theorem specKeepFirst_nodup (l : List (String × Row)) :
    ((specKeepFirst l).map filenameOf).Nodup := by
  match l with
  | [] => simp [specKeepFirst]
  | (n, r) :: rest =>
    rw [specKeepFirst, List.map_cons, List.nodup_cons]
    constructor
    · intro hmem
      obtain ⟨r', hr', hfn⟩ := List.mem_map.mp hmem
      obtain ⟨p, hp, hpr⟩ := specKeepFirst_subset _ r' hr'
      have hpred := (List.mem_filter.mp hp).2
      rw [hpr, hfn] at hpred
      simp at hpred
    · exact specKeepFirst_nodup (rest.filter (fun p => !(filenameOf r == filenameOf p.2)))
termination_by l.length
decreasing_by
  simp only [List.length_cons]
  have := List.length_filter_le (fun p => !(filenameOf r == filenameOf p.2)) rest
  omega

theorem removeFirstRow_sublist (data : List Row) (fn : String) :
    List.Sublist (removeFirstRowWithFilename data fn) data := by
  induction data with
  | nil => exact List.Sublist.refl []
  | cons r rest ih =>
    rw [removeFirstRowWithFilename]
    by_cases hr : filenameOf r = fn
    · rw [if_pos hr]
      exact List.sublist_cons_self r rest
    · rw [if_neg hr]
      exact List.Sublist.cons₂ r ih

theorem removeFirst_not_mem (data : List Row) (fn : String)
    (huniq : (data.map filenameOf).Nodup) :
    fn ∉ (removeFirstRowWithFilename data fn).map filenameOf := by
  induction data with
  | nil => simp [removeFirstRowWithFilename]
  | cons r rest ih =>
    rw [List.map_cons, List.nodup_cons] at huniq
    rw [removeFirstRowWithFilename]
    by_cases hr : filenameOf r = fn
    · rw [if_pos hr]
      rw [← hr]
      exact huniq.1
    · rw [if_neg hr]
      rw [List.map_cons]
      intro hcon
      rcases List.mem_cons.mp hcon with h | h
      · exact hr h.symm
      · exact ih huniq.2 h

theorem mem_names_removeFirst (data : List Row) (fn g : String) (hg : g ≠ fn) :
    g ∈ (removeFirstRowWithFilename data fn).map filenameOf
      ↔ g ∈ data.map filenameOf := by
  induction data with
  | nil => rfl
  | cons r rest ih =>
    rw [removeFirstRowWithFilename]
    by_cases hr : filenameOf r = fn
    · rw [if_pos hr, List.map_cons, List.mem_cons]
      constructor
      · exact Or.inr
      · rintro (h | h)
        · exact absurd (h.trans hr) hg
        · exact h
    · rw [if_neg hr, List.map_cons, List.map_cons, List.mem_cons, List.mem_cons]
      exact or_congr Iff.rfl ih

theorem filter_ne_removeFirst (data : List Row) (fn : String) (q : Row → Bool)
    (huniq : (data.map filenameOf).Nodup) :
    data.filter (fun x => (!(filenameOf x == fn)) && q x)
      = (removeFirstRowWithFilename data fn).filter q := by
  induction data with
  | nil => rfl
  | cons r rest ih =>
    rw [List.map_cons, List.nodup_cons] at huniq
    rw [removeFirstRowWithFilename]
    by_cases hr : filenameOf r = fn
    · rw [if_pos hr]
      rw [List.filter_cons_of_neg (by simp [hr])]
      apply List.filter_congr
      intro x hx
      have hxne : filenameOf x ≠ fn := by
        intro hcon
        exact huniq.1 (hr ▸ hcon ▸ List.mem_map_of_mem filenameOf hx)
      have : (filenameOf x == fn) = false := beq_eq_false_iff_ne.mpr hxne
      rw [this]
      rfl
    · rw [if_neg hr]
      have hpred : ((!(filenameOf r == fn)) && q r) = q r := by
        have : (filenameOf r == fn) = false := beq_eq_false_iff_ne.mpr hr
        rw [this]
        rfl
      rw [List.filter_cons, List.filter_cons, hpred, ih huniq.2]

theorem specKeepLast_subset (l : List (String × Row)) :
    ∀ r' ∈ specKeepLast l, ∃ p, p ∈ l ∧ p.2 = r' := by
  induction l with
  | nil => simp [specKeepLast]
  | cons p rest ih =>
    obtain ⟨n, r⟩ := p
    rw [specKeepLast]
    intro r' hr'
    by_cases hrest : hasFilename rest (filenameOf r)
    · rw [if_pos hrest] at hr'
      obtain ⟨p, hp, hpr⟩ := ih r' hr'
      exact ⟨p, List.mem_cons_of_mem _ hp, hpr⟩
    · rw [if_neg hrest] at hr'
      rcases List.mem_cons.mp hr' with h | h
      · exact ⟨(n, r), List.mem_cons_self _ _, h.symm⟩
      · obtain ⟨p, hp, hpr⟩ := ih r' h
        exact ⟨p, List.mem_cons_of_mem _ hp, hpr⟩

theorem specKeepLast_nodup (l : List (String × Row)) :
    ((specKeepLast l).map filenameOf).Nodup := by
  induction l with
  | nil => simp [specKeepLast]
  | cons p rest ih =>
    obtain ⟨n, r⟩ := p
    rw [specKeepLast]
    by_cases hrest : hasFilename rest (filenameOf r)
    · rw [if_pos hrest]
      exact ih
    · rw [if_neg hrest]
      rw [List.map_cons, List.nodup_cons]
      refine ⟨?_, ih⟩
      intro hmem
      obtain ⟨r', hr', hfn⟩ := List.mem_map.mp hmem
      obtain ⟨p, hp, hpr⟩ := specKeepLast_subset rest r' hr'
      apply hrest
      rw [hasFilename]
      refine List.any_eq_true.mpr ⟨p, hp, ?_⟩
      rw [hpr, hfn]
      exact beq_self_eq_true _

theorem consolidateGo_keepLast (l : List (String × Row)) :
    ∀ st : ConsolidateState,
      ((st.consolidatedData.map filenameOf).Nodup) →
      (∀ fn, fn ∈ st.seenFilenames ↔ fn ∈ st.consolidatedData.map filenameOf) →
      (consolidateGo .keep_last st l).consolidatedData
        = st.consolidatedData.filter (fun x => !(hasFilename l (filenameOf x)))
            ++ specKeepLast l := by
  induction l with
  | nil =>
    intro st _ _
    simp [consolidateGo, specKeepLast, hasFilename]
  | cons p rest ih =>
    obtain ⟨n, r⟩ := p
    intro st huniq hseen
    rw [show consolidateGo .keep_last st ((n, r) :: rest)
          = consolidateGo .keep_last (consolidateStep .keep_last n st r) rest
        from rfl]
    have hhcons : ∀ g, hasFilename ((n, r) :: rest) g
        = ((g == filenameOf r) || hasFilename rest g) := by
      intro g
      rw [hasFilename, hasFilename, List.any_cons]
    have hgoalfilter :
        st.consolidatedData.filter
            (fun x => !(hasFilename ((n, r) :: rest) (filenameOf x)))
          = st.consolidatedData.filter
              (fun x => (!(filenameOf x == filenameOf r))
                  && (!(hasFilename rest (filenameOf x)))) := by
      apply List.filter_congr
      intro x _
      rw [hhcons, Bool.not_or]
    rw [hgoalfilter]
    by_cases hmem : filenameOf r ∈ st.seenFilenames
    · have hfndata : filenameOf r ∈ st.consolidatedData.map filenameOf :=
        (hseen _).mp hmem
      rw [show consolidateStep .keep_last n st r
            = { consolidatedData :=
                  removeFirstRowWithFilename st.consolidatedData (filenameOf r) ++ [r]
                seenFilenames := addToSet st.seenFilenames (filenameOf r) } from by
        rw [consolidateStep]
        simp only [if_pos hmem]]
      have huniq1 :
          ((removeFirstRowWithFilename st.consolidatedData (filenameOf r)).map
            filenameOf).Nodup :=
        ((removeFirstRow_sublist _ _).map filenameOf).nodup huniq
      have hnotin1 := removeFirst_not_mem st.consolidatedData (filenameOf r) huniq
      have huniq' :
          (((removeFirstRowWithFilename st.consolidatedData (filenameOf r)
              ++ [r]).map filenameOf)).Nodup := by
        rw [List.map_append, List.map_singleton]
        refine List.Nodup.append huniq1 (List.nodup_singleton _) ?_
        intro a ha hb
        rw [List.mem_singleton] at hb
        exact hnotin1 (hb ▸ ha)
      have hseen' : ∀ g, g ∈ addToSet st.seenFilenames (filenameOf r)
          ↔ g ∈ (removeFirstRowWithFilename st.consolidatedData (filenameOf r)
              ++ [r]).map filenameOf := by
        intro g
        rw [mem_addToSet, List.map_append, List.map_singleton, List.mem_append,
          List.mem_singleton]
        by_cases hgf : g = filenameOf r
        · simp [hgf]
        · rw [or_iff_right hgf, hseen, mem_names_removeFirst _ _ _ hgf]
          constructor
          · exact Or.inl
          · rintro (h | h)
            · exact h
            · exact absurd h hgf
      rw [ih _ huniq' hseen']
      rw [List.filter_append]
      rw [filter_ne_removeFirst st.consolidatedData (filenameOf r)
        (fun x => !(hasFilename rest (filenameOf x))) huniq]
      rw [specKeepLast]
      by_cases hrest : hasFilename rest (filenameOf r)
      · rw [if_pos hrest]
        rw [show List.filter (fun x => !(hasFilename rest (filenameOf x))) [r]
              = [] from by
          rw [List.filter_singleton]
          simp [hrest]]
        simp
      · rw [if_neg hrest]
        rw [show List.filter (fun x => !(hasFilename rest (filenameOf x))) [r]
              = [r] from by
          rw [List.filter_singleton]
          simp [hrest]]
        simp [List.append_assoc]
    · have hfndata : filenameOf r ∉ st.consolidatedData.map filenameOf :=
        fun h => hmem ((hseen _).mpr h)
      rw [show consolidateStep .keep_last n st r
            = { consolidatedData := st.consolidatedData ++ [r]
                seenFilenames := addToSet st.seenFilenames (filenameOf r) } from by
        rw [consolidateStep]
        simp only [if_neg hmem]]
      have huniq' : (((st.consolidatedData ++ [r]).map filenameOf)).Nodup := by
        rw [List.map_append, List.map_singleton]
        refine List.Nodup.append huniq (List.nodup_singleton _) ?_
        intro a ha hb
        rw [List.mem_singleton] at hb
        exact hfndata (hb ▸ ha)
      have hseen' : ∀ g, g ∈ addToSet st.seenFilenames (filenameOf r)
          ↔ g ∈ (st.consolidatedData ++ [r]).map filenameOf := by
        intro g
        rw [mem_addToSet, List.map_append, List.map_singleton, List.mem_append,
          List.mem_singleton]
        by_cases hgf : g = filenameOf r
        · simp [hgf]
        · rw [or_iff_right hgf, hseen]
          constructor
          · exact Or.inl
          · rintro (h | h)
            · exact h
            · exact absurd h hgf
      rw [ih _ huniq' hseen']
      rw [List.filter_append]
      rw [show st.consolidatedData.filter
            (fun x => (!(filenameOf x == filenameOf r))
                && (!(hasFilename rest (filenameOf x))))
          = st.consolidatedData.filter
              (fun x => !(hasFilename rest (filenameOf x))) from by
        apply List.filter_congr
        intro x hx
        have hxne : filenameOf x ≠ filenameOf r := by
          intro hcon
          exact hfndata (hcon ▸ List.mem_map_of_mem filenameOf hx)
        have : (filenameOf x == filenameOf r) = false := beq_eq_false_iff_ne.mpr hxne
        rw [this]
        rfl]
      rw [specKeepLast]
      by_cases hrest : hasFilename rest (filenameOf r)
      · rw [if_pos hrest]
        rw [show List.filter (fun x => !(hasFilename rest (filenameOf x))) [r]
              = [] from by
          rw [List.filter_singleton]
          simp [hrest]]
        simp
      · rw [if_neg hrest]
        rw [show List.filter (fun x => !(hasFilename rest (filenameOf x))) [r]
              = [r] from by
          rw [List.filter_singleton]
          simp [hrest]]
        simp [List.append_assoc]

theorem sortByFilename_perm (data : List Row) : (sortByFilename data).Perm data := by
  rw [sortByFilename]
  exact List.perm_insertionSort _ data

/-- Claim C5: duplicate resolution follows the configured policy. The
pre-sort consolidated data equals, exactly: under `keep_first` the stream
with every row after the first occurrence of its filename dropped; under
`keep_last` the stream keeping only each filename's last occurrence; under
`flag_duplicates` the whole stream with every occurrence after the first
tagged with `_duplicate`/`_original_batch` metadata. The sorted pipeline
output is a permutation of these, filenames are unique under `keep_first`
and `keep_last`, and `flag_duplicates` keeps every row. Concretely, for two
artifacts both holding a row for `"a.mp3"`, `keep_first` keeps the first
file's values, `keep_last` the second's, and `flag_duplicates` both with the
second tagged. -/
theorem consolidateCSVData_duplicate_policies (batchFiles : List CsvFile) :
    consolidateRowsPre .keep_first batchFiles = specKeepFirst (allRows batchFiles)
    ∧ consolidateRowsPre .keep_last batchFiles = specKeepLast (allRows batchFiles)
    ∧ consolidateRowsPre .flag_duplicates batchFiles
        = specFlagDuplicates [] (allRows batchFiles)
    ∧ (consolidateCSVData .keep_first batchFiles).Perm
        (specKeepFirst (allRows batchFiles))
    ∧ (consolidateCSVData .keep_last batchFiles).Perm
        (specKeepLast (allRows batchFiles))
    ∧ (consolidateCSVData .flag_duplicates batchFiles).Perm
        (specFlagDuplicates [] (allRows batchFiles))
    ∧ ((consolidateCSVData .keep_first batchFiles).map filenameOf).Nodup
    ∧ ((consolidateCSVData .keep_last batchFiles).map filenameOf).Nodup
    ∧ (specFlagDuplicates [] (allRows batchFiles)).length
        = (allRows batchFiles).length
    ∧ consolidateCSVData .keep_first duplicateScenario = [rowA1, rowB]
    ∧ consolidateCSVData .keep_last duplicateScenario = [rowA2, rowB]
    ∧ consolidateCSVData .flag_duplicates duplicateScenario
        = [rowA1, rowA2Flagged, rowB] := by
  have h1 : consolidateRowsPre .keep_first batchFiles
      = specKeepFirst (allRows batchFiles) := by
    rw [consolidateRowsPre_eq_go, consolidateGo_keepFirst]
    rw [show ((allRows batchFiles).filter
          (fun p => !(decide (filenameOf p.2 ∈
            (({ consolidatedData := [], seenFilenames := [] } :
              ConsolidateState)).seenFilenames))))
        = allRows batchFiles from List.filter_eq_self.mpr (fun a _ => by simp)]
    rfl
  have h2 : consolidateRowsPre .keep_last batchFiles
      = specKeepLast (allRows batchFiles) := by
    rw [consolidateRowsPre_eq_go,
      consolidateGo_keepLast _ _ (by simp) (fun fn => by simp)]
    rfl
  have h3 : consolidateRowsPre .flag_duplicates batchFiles
      = specFlagDuplicates [] (allRows batchFiles) := by
    rw [consolidateRowsPre_eq_go,
      consolidateGo_flag _ _ [] (fun fn => Iff.rfl)]
    rfl
  have hp1 : (consolidateCSVData .keep_first batchFiles).Perm
      (specKeepFirst (allRows batchFiles)) := by
    rw [consolidateCSVData]
    have hsp := sortByFilename_perm (consolidateRowsPre .keep_first batchFiles)
    have hpe : (consolidateRowsPre .keep_first batchFiles).Perm
        (specKeepFirst (allRows batchFiles)) := by
      rw [h1]
    exact hsp.trans hpe
  have hp2 : (consolidateCSVData .keep_last batchFiles).Perm
      (specKeepLast (allRows batchFiles)) := by
    rw [consolidateCSVData]
    have hsp := sortByFilename_perm (consolidateRowsPre .keep_last batchFiles)
    have hpe : (consolidateRowsPre .keep_last batchFiles).Perm
        (specKeepLast (allRows batchFiles)) := by
      rw [h2]
    exact hsp.trans hpe
  have hp3 : (consolidateCSVData .flag_duplicates batchFiles).Perm
      (specFlagDuplicates [] (allRows batchFiles)) := by
    rw [consolidateCSVData]
    have hsp := sortByFilename_perm (consolidateRowsPre .flag_duplicates batchFiles)
    have hpe : (consolidateRowsPre .flag_duplicates batchFiles).Perm
        (specFlagDuplicates [] (allRows batchFiles)) := by
      rw [h3]
    exact hsp.trans hpe
  refine ⟨h1, h2, h3, hp1, hp2, hp3, ?_, ?_, specFlagDuplicates_length _ [], ?_, ?_, ?_⟩
  · exact (hp1.map filenameOf).nodup_iff.mpr (specKeepFirst_nodup _)
  · exact (hp2.map filenameOf).nodup_iff.mpr (specKeepLast_nodup _)
  · decide
  · decide
  · decide

/-! ## Claim C6: progress-state persistence (`_saveState` / `loadState`)

JSON serializes a `Date` as its ISO-8601 string, which carries the exact
millisecond timestamp; `new Date(isoString)` recovers it. Timestamps are
therefore modelled by their millisecond value, and `isoDateRoundtrip` marks
each place where `loadState` performs the `new Date(...)` conversion. -/

/-- Modelled `new Date(isoString).getTime()` for an ISO string produced from the
millisecond value `ms`: lossless. -/
def isoDateRoundtrip (ms : Nat) : Nat := ms

/-- The document `_saveState` writes (`processingState`, `batches`,
`Array.from(processedFiles)`, `Array.from(failedFiles)`, `lastSaved`; the
`config` field is also serialized but never restored by `loadState`). -/
structure SavedState where
  processingState : ProcessingState
  batches : List Batch
  processedFiles : List String
  failedFiles : List String
  lastSaved : Nat
deriving DecidableEq, Repr

/-- Embedding of `FileManager._saveState()` (with progress tracking enabled): serialize
the current in-memory state. `now` models `new Date()`. -/
def saveStateDoc (fm : FileManager) (now : Nat) : SavedState :=
  { processingState := fm.processingState
    batches := fm.batches
    processedFiles := fm.processedFiles
    failedFiles := fm.failedFiles
    lastSaved := now }

/-- Rebuilding `new Set(array)`: first occurrences in insertion order. -/
def mkSetFromList (l : List String) : List String :=
  l.foldl addToSet []

/-- Embedding of `FileManager.loadState()` on an existing state file: restore
`processingState` and `batches` wholesale, rebuild the processed/failed sets,
and convert the persisted date strings back to `Date` objects
(`processingState.startTime` and each batch's `startTime`/`endTime`). -/
def loadStateFM (doc : SavedState) : FileManager :=
  { processingState :=
      { doc.processingState with
          startTime := doc.processingState.startTime.map isoDateRoundtrip }
    batches := doc.batches.map (fun b =>
      { b with
          startTime := b.startTime.map isoDateRoundtrip
          endTime := b.endTime.map isoDateRoundtrip })
    processedFiles := mkSetFromList doc.processedFiles
    failedFiles := mkSetFromList doc.failedFiles }

theorem mem_foldl_addToSet (l : List String) :
    ∀ (acc : List String) (x : String),
      x ∈ l.foldl addToSet acc ↔ x ∈ acc ∨ x ∈ l := by
  induction l with
  | nil => intro acc x; simp
  | cons y rest ih =>
    intro acc x
    rw [List.foldl_cons, ih, mem_addToSet]
    rw [List.mem_cons]
    tauto

theorem mem_mkSetFromList (l : List String) (x : String) :
    x ∈ mkSetFromList l ↔ x ∈ l := by
  rw [mkSetFromList, mem_foldl_addToSet]
  simp

/-- Claim C6: saving the processing state and loading it back reconstitutes
a state equal in all persisted fields — the batch records (statuses,
attempts counters, start/end timestamps, error messages), the
processed/failed file-path sets, and the processing-state aggregate
(including its start timestamp and counters). -/
theorem saveState_loadState_roundtrip (fm : FileManager) (now : Nat) :
    (loadStateFM (saveStateDoc fm now)).batches = fm.batches
    ∧ (∀ x, x ∈ (loadStateFM (saveStateDoc fm now)).processedFiles
        ↔ x ∈ fm.processedFiles)
    ∧ (∀ x, x ∈ (loadStateFM (saveStateDoc fm now)).failedFiles
        ↔ x ∈ fm.failedFiles)
    ∧ (loadStateFM (saveStateDoc fm now)).processingState.startTime
        = fm.processingState.startTime
    ∧ (loadStateFM (saveStateDoc fm now)).processingState.totalFiles
        = fm.processingState.totalFiles
    ∧ (loadStateFM (saveStateDoc fm now)).processingState.processedCount
        = fm.processingState.processedCount
    ∧ (loadStateFM (saveStateDoc fm now)).processingState.failedCount
        = fm.processingState.failedCount
    ∧ (loadStateFM (saveStateDoc fm now)).processingState.currentBatch
        = fm.processingState.currentBatch := by
  have hopt : ∀ o : Option Nat, o.map isoDateRoundtrip = o := by
    intro o
    cases o <;> rfl
  refine ⟨?_, ?_, ?_, ?_, rfl, rfl, rfl, rfl⟩
  · show fm.batches.map _ = fm.batches
    calc fm.batches.map (fun b =>
          { b with
              startTime := b.startTime.map isoDateRoundtrip
              endTime := b.endTime.map isoDateRoundtrip })
        = fm.batches.map id := by
          apply List.map_congr_left
          intro b _
          cases b
          simp [hopt]
      _ = fm.batches := List.map_id fm.batches
  · intro x
    exact mem_mkSetFromList fm.processedFiles x
  · intro x
    exact mem_mkSetFromList fm.failedFiles x
  · exact hopt fm.processingState.startTime

/-! ## Claim C7: numeric formatting of feature fields
(`formatBPM` / `formatMoodValue` in the CSV export module)

JS numbers reaching these helpers are modelled as rationals. `Option ℚ`
distinguishes the missing/unparseable inputs (`null`, `undefined`, `''`,
`parseFloat` returning `NaN`), for which both helpers return the empty
string. `Math.round(x)` is `⌊x + 1/2⌋`; `x.toFixed(3)` picks the integer
`n` with `n / 1000` closest to `|x|` (ties upward), prefixing `-` when
`x < 0`. -/

/-- Embedding of `formatBPM`: empty for missing/unparseable input, else
`Math.round(bpm).toString()`. -/
def formatBPM (bpm : Option ℚ) : String :=
  match bpm with
  | none => ""
  | some q => toString (⌊q + 1/2⌋ : ℤ)

/-- Modelled `value.toFixed(3)`: sign, integer part, and exactly three fraction
digits. -/
def toFixed3 (q : ℚ) : String :=
  (if q < 0 then "-" else "")
    ++ toString ((⌊|q| * 1000 + 1/2⌋ : ℤ).toNat / 1000)
    ++ "."
    ++ String.mk [Nat.digitChar ((⌊|q| * 1000 + 1/2⌋ : ℤ).toNat / 100 % 10),
                  Nat.digitChar ((⌊|q| * 1000 + 1/2⌋ : ℤ).toNat / 10 % 10),
                  Nat.digitChar ((⌊|q| * 1000 + 1/2⌋ : ℤ).toNat % 10)]

/-- Embedding of `formatMoodValue`: empty for missing/unparseable input, else
`numericValue.toFixed(3)` — on both the in-range path and the out-of-range
path (which additionally warns). -/
def formatMoodValue (value : Option ℚ) : String :=
  match value with
  | none => ""
  | some q => toFixed3 q

/-- The guard of `formatMoodValue`'s out-of-range warning
(`numericValue < 0 || numericValue > 1`). -/
def moodOutOfRange (q : ℚ) : Bool :=
  decide (q < 0) || decide (q > 1)

/-- Claim C7: tempo rounds to the nearest integer (`127.6` formats to
`"128"`, and in general `Math.round` lands within `1/2` of the input);
mood/genre/danceability scores format to exactly three decimal places
(`0.8523` formats to `"0.852"`); a score outside `[0, 1]` is still written
in three-decimal form — `1.5` gives `"1.500"`, `-0.5` gives `"-0.500"` —
and triggers the out-of-range warning exactly when the value is below `0`
or above `1`; a missing or unparseable value serializes as the empty
field. -/
theorem formatting_numeric_rules :
    formatBPM (some (1276/10)) = "128"
    ∧ (∀ q : ℚ, |((⌊q + 1/2⌋ : ℤ) : ℚ) - q| ≤ 1/2
        ∧ formatBPM (some q) = toString (⌊q + 1/2⌋ : ℤ))
    ∧ formatMoodValue (some (8523/10000)) = "0.852"
    ∧ (∀ q : ℚ, ∃ a d : String,
        formatMoodValue (some q) = a ++ "." ++ d ∧ d.length = 3)
    ∧ moodOutOfRange (3/2) = true
    ∧ formatMoodValue (some (3/2)) = "1.500"
    ∧ moodOutOfRange (-1/2) = true
    ∧ formatMoodValue (some (-1/2)) = "-0.500"
    ∧ (∀ q : ℚ, moodOutOfRange q = true ↔ (q < 0 ∨ 1 < q))
    ∧ formatBPM none = ""
    ∧ formatMoodValue none = "" := by
  refine ⟨?_, ?_, ?_, ?_, ?_, ?_, ?_, ?_, ?_, rfl, rfl⟩
  · have hfloor : (⌊(1276/10 : ℚ) + 1/2⌋ : ℤ) = 128 := by norm_num
    simp only [formatBPM]
    rw [hfloor]
    rfl
  · intro q
    constructor
    · rw [abs_le]
      constructor
      · have := Int.lt_floor_add_one (q + 1/2)
        linarith
      · have := Int.floor_le (q + 1/2)
        linarith
    · rfl
  · have hfloor : (⌊|(8523/10000 : ℚ)| * 1000 + 1/2⌋ : ℤ) = 852 := by
      rw [abs_of_nonneg (by norm_num : (0:ℚ) ≤ 8523/10000)]
      norm_num
    simp only [formatMoodValue, toFixed3]
    rw [hfloor, if_neg (by norm_num : ¬(8523/10000 : ℚ) < 0)]
    decide
  · intro q
    refine ⟨(if q < 0 then "-" else "")
        ++ toString ((⌊|q| * 1000 + 1/2⌋ : ℤ).toNat / 1000),
      String.mk [Nat.digitChar ((⌊|q| * 1000 + 1/2⌋ : ℤ).toNat / 100 % 10),
                 Nat.digitChar ((⌊|q| * 1000 + 1/2⌋ : ℤ).toNat / 10 % 10),
                 Nat.digitChar ((⌊|q| * 1000 + 1/2⌋ : ℤ).toNat % 10)], ?_, rfl⟩
    simp only [formatMoodValue, toFixed3]
  · rw [moodOutOfRange]
    exact Bool.or_eq_true _ _ |>.mpr (Or.inr (decide_eq_true (by norm_num)))
  · have hfloor : (⌊|(3/2 : ℚ)| * 1000 + 1/2⌋ : ℤ) = 1500 := by
      rw [abs_of_nonneg (by norm_num : (0:ℚ) ≤ 3/2)]
      norm_num
    simp only [formatMoodValue, toFixed3]
    rw [hfloor, if_neg (by norm_num : ¬(3/2 : ℚ) < 0)]
    decide
  · rw [moodOutOfRange]
    exact Bool.or_eq_true _ _ |>.mpr (Or.inl (decide_eq_true (by norm_num)))
  · have hfloor : (⌊|(-1/2 : ℚ)| * 1000 + 1/2⌋ : ℤ) = 500 := by
      rw [abs_of_nonpos (by norm_num : (-1/2 : ℚ) ≤ 0)]
      norm_num
    simp only [formatMoodValue, toFixed3]
    rw [hfloor, if_pos (by norm_num : (-1/2 : ℚ) < 0)]
    decide
  · intro q
    rw [moodOutOfRange]
    rw [Bool.or_eq_true, decide_eq_true_iff, decide_eq_true_iff]

end MirWorkflow
